import Mathlib

/-!
# Shallow embedding of the mx-bridge-eth-go relayer core

This file embeds, in Lean, the parts of the relayer that the verified
properties talk about:

* the chain-agnostic bridge executor
  (`ethToElrond/v2/bridge/bridgeExecutor.go`),
* the leader-rotation topology handler
  (`bridges/ethElrond/topology/topologyHandler.go`),
* two v2 half-bridge steps (propose and wait-for-quorum),
* the peer-to-peer signature broadcaster (`relay/p2p/broadcaster.go`),
* the Ethereum batch argument extractor
  (`core/batchProcessor/batchProcessor.go`).

Modelling conventions:

* Go `uint64` values are `Nat` with explicit `% 2 ^ 64` at every operation
  that can wrap; Go `int64` values are `Int`, with Go division embedded as
  truncated division (`Int.tdiv`) and `uint64(x)` conversion embedded as
  `x % 2 ^ 64` (two's complement reinterpretation).
* Byte slices are `List Nat`.  Where slice *aliasing* matters (the batch
  processor), a byte slice or a `big.Int` is a pair of a reference
  identity (`id : Nat`) and its contents: Go code that copies the
  contents allocates a new `id`, Go code that stores the slice header
  itself keeps the same `id`.  Two references can mutate the same
  underlying memory exactly when their `id`s are equal.
* Chain clients, signers and the role provider are interfaces; every
  embedded operation takes the outcome of the client call it performs as
  an explicit argument (`Except`-valued), so theorems quantify over all
  client behaviours.
* Go functions returning `(value, error)` become pairs with
  `Option`/`Except` error components; a Go `nil` pointer is `Option.none`;
  a nil-pointer dereference (panic) is modelled by an `Option.none`
  result of the whole operation.
-/

namespace MxBridge

/-- Size of the Go `uint64` value domain. -/
def U64 : Nat := 2 ^ 64

/-- A byte slice together with its reference identity (the identity of the
Go backing array).  Mutation through one reference is visible through
another exactly when the `id`s coincide. -/
structure BytesRef where
  id : Nat
  data : List Nat
deriving DecidableEq, Repr

/-- A `big.Int` together with its reference identity. -/
structure BigIntRef where
  id : Nat
  val : Int
deriving DecidableEq, Repr

/-- One cross-chain transfer (`clients.DepositTransfer`): per-batch nonce,
recipient address bytes on the destination chain, converted token
identifier bytes and the amount.  Display-only fields are omitted. -/
structure Deposit where
  nonce : Nat
  toBytes : BytesRef
  convertedTokenBytes : BytesRef
  amount : BigIntRef
deriving DecidableEq, Repr

/-- A transfer batch (`clients.TransferBatch`): identifier, ordered
deposits and the per-deposit status vector. -/
structure TransferBatch where
  id : Nat
  deposits : List Deposit
  statuses : List Nat
deriving DecidableEq, Repr

/-- Errors surfaced by the embedded executor operations.  `clientError`
stands for an arbitrary error returned by a chain client. -/
inductive BridgeError where
  | errNilBatch : BridgeError
  | invalidDepositNonce (got expected : Nat) : BridgeError
  | clientError (code : Nat) : BridgeError
deriving DecidableEq, Repr

/-- The mutable fields of `bridgeExecutor` that the verified operations
read or write: the stored batch (nullable), the stored action ID, the
stored message hash and the two retry counters. -/
structure BridgeExecutorState where
  batch : Option TransferBatch
  actionID : Nat
  msgHash : List Nat
  retriesOnElrond : Nat
  retriesOnEthereum : Nat
deriving DecidableEq, Repr

/-- Sentinel action ID returned on failure (`v2.InvalidActionID`; the
concrete value is opaque to the executor, only its role as a sentinel
matters). -/
def InvalidActionID : Nat := 0

/-- `StoreBatchFromElrond` (bridgeExecutor.go:93-100): a nil batch is
rejected with `ErrNilBatch` before the stored batch is touched. -/
def StoreBatchFromElrond (st : BridgeExecutorState) (batch : Option TransferBatch) :
    Option BridgeError × BridgeExecutorState :=
  match batch with
  | none => (some BridgeError.errNilBatch, st)
  | some b => (none, { st with batch := some b })

/-- The loop body of `verifyDepositNonces` (bridgeExecutor.go:126-137):
walk the deposits comparing each nonce with a running expected nonce that
starts at `lastNonce + 1` and is incremented (with `uint64` wrap) after
every deposit. -/
def verifyDepositNoncesFrom (startNonce : Nat) : List Deposit → Option BridgeError
  | [] => none
  | dt :: rest =>
      if dt.nonce ≠ startNonce then
        some (BridgeError.invalidDepositNonce dt.nonce startNonce)
      else
        verifyDepositNoncesFrom ((startNonce + 1) % U64) rest

/-- `verifyDepositNonces` (bridgeExecutor.go:126): starts the expected
nonce at `lastNonce + 1` (with `uint64` wrap). -/
def verifyDepositNonces (lastNonce : Nat) (b : TransferBatch) : Option BridgeError :=
  verifyDepositNoncesFrom ((lastNonce + 1) % U64) b.deposits

/-- `VerifyLastDepositNonceExecutedOnEthereumBatch`
(bridgeExecutor.go:113-124): nil-batch guard, then the
`GetLastExecutedEthTxID` client call (its outcome is the `client`
argument), then the nonce walk. -/
def VerifyLastDepositNonceExecutedOnEthereumBatch (st : BridgeExecutorState)
    (client : Except BridgeError Nat) : Option BridgeError :=
  match st.batch with
  | none => some BridgeError.errNilBatch
  | some b =>
      match client with
      | Except.error e => some e
      | Except.ok lastNonce => verifyDepositNonces lastNonce b

/-- `GetAndStoreActionIDForProposeTransferOnElrond`
(bridgeExecutor.go:140-153): nil-batch guard, then the
`GetActionIDForProposeTransfer` client call; on client error the sentinel
and the error are returned and the state is untouched; on success the
action ID is stored. -/
def GetAndStoreActionIDForProposeTransferOnElrond (st : BridgeExecutorState)
    (client : Except BridgeError Nat) :
    (Nat × Option BridgeError) × BridgeExecutorState :=
  match st.batch with
  | none => ((InvalidActionID, some BridgeError.errNilBatch), st)
  | some _ =>
      match client with
      | Except.error e => ((InvalidActionID, some e), st)
      | Except.ok actionID => ((actionID, none), { st with actionID := actionID })

/-- `GetAndStoreActionIDForProposeSetStatusFromElrond`
(bridgeExecutor.go:156-169): same shape over the
`GetActionIDForSetStatusOnPendingTransfer` client call. -/
def GetAndStoreActionIDForProposeSetStatusFromElrond (st : BridgeExecutorState)
    (client : Except BridgeError Nat) :
    (Nat × Option BridgeError) × BridgeExecutorState :=
  match st.batch with
  | none => ((InvalidActionID, some BridgeError.errNilBatch), st)
  | some _ =>
      match client with
      | Except.error e => ((InvalidActionID, some e), st)
      | Except.ok actionID => ((actionID, none), { st with actionID := actionID })

/-- `WasTransferProposedOnElrond` (bridgeExecutor.go:177-183). -/
def WasTransferProposedOnElrond (st : BridgeExecutorState)
    (client : Except BridgeError Bool) : Bool × Option BridgeError :=
  match st.batch with
  | none => (false, some BridgeError.errNilBatch)
  | some _ =>
      match client with
      | Except.error e => (false, some e)
      | Except.ok b => (b, none)

/-- `ProposeTransferOnElrond` (bridgeExecutor.go:186-200); the client
call yields a transaction hash that is only logged. -/
def ProposeTransferOnElrond (st : BridgeExecutorState)
    (client : Except BridgeError (List Nat)) : Option BridgeError :=
  match st.batch with
  | none => some BridgeError.errNilBatch
  | some _ =>
      match client with
      | Except.error e => some e
      | Except.ok _ => none

/-- `WasSetStatusProposedOnElrond` (bridgeExecutor.go:203-209). -/
def WasSetStatusProposedOnElrond (st : BridgeExecutorState)
    (client : Except BridgeError Bool) : Bool × Option BridgeError :=
  match st.batch with
  | none => (false, some BridgeError.errNilBatch)
  | some _ =>
      match client with
      | Except.error e => (false, some e)
      | Except.ok b => (b, none)

/-- `ProposeSetStatusOnElrond` (bridgeExecutor.go:212-226). -/
def ProposeSetStatusOnElrond (st : BridgeExecutorState)
    (client : Except BridgeError (List Nat)) : Option BridgeError :=
  match st.batch with
  | none => some BridgeError.errNilBatch
  | some _ =>
      match client with
      | Except.error e => some e
      | Except.ok _ => none

/-- `GetBatchStatusesFromEthereum` (bridgeExecutor.go:263-274). -/
def GetBatchStatusesFromEthereum (st : BridgeExecutorState)
    (client : Except BridgeError (List Nat)) : Except BridgeError (List Nat) :=
  match st.batch with
  | none => Except.error BridgeError.errNilBatch
  | some _ => client

/-- `PerformActionOnElrond` (bridgeExecutor.go:282-296). -/
def PerformActionOnElrond (st : BridgeExecutorState)
    (client : Except BridgeError (List Nat)) : Option BridgeError :=
  match st.batch with
  | none => some BridgeError.errNilBatch
  | some _ =>
      match client with
      | Except.error e => some e
      | Except.ok _ => none

/-- `SignTransferOnEthereum` (bridgeExecutor.go:342-358): nil-batch
guard, then `GenerateMessageHash`; on success the hash is stored and the
signature broadcast (the broadcast itself has no executor-visible
state). -/
def SignTransferOnEthereum (st : BridgeExecutorState)
    (genHash : Except BridgeError (List Nat)) :
    Option BridgeError × BridgeExecutorState :=
  match st.batch with
  | none => (some BridgeError.errNilBatch, st)
  | some _ =>
      match genHash with
      | Except.error e => (some e, st)
      | Except.ok h => (none, { st with msgHash := h })

/-- `WasTransferPerformedOnEthereum` (bridgeExecutor.go:333-339). -/
def WasTransferPerformedOnEthereum (st : BridgeExecutorState)
    (client : Except BridgeError Bool) : Bool × Option BridgeError :=
  match st.batch with
  | none => (false, some BridgeError.errNilBatch)
  | some _ =>
      match client with
      | Except.error e => (false, some e)
      | Except.ok b => (b, none)

/-- Modelled from the spec: `clients.TransferBatch.ResolveNewDeposits` is
not among the sources; per §3 it fills the per-deposit status vector, and
per §6 a missing final status is `Rejected = 0x04`.  Any faithful body
reads the batch through its receiver pointer, which is what matters
below. -/
def TransferBatch.resolveNewDeposits (tb : TransferBatch) (newNumDeposits : Nat) :
    TransferBatch :=
  { tb with statuses := tb.statuses ++ List.replicate (newNumDeposits - tb.statuses.length) 0x04 }

/-- `ResolveNewDepositsStatuses` (bridgeExecutor.go:299-301): the stored
batch is dereferenced with **no** nil guard, so a nil stored batch makes
the Go code panic with a nil-pointer dereference; the panic is the
`none` result.  The operation returns no error value at all. -/
def ResolveNewDepositsStatuses (st : BridgeExecutorState) (numDeposits : Nat) :
    Option BridgeExecutorState :=
  match st.batch with
  | none => none
  | some b => some { st with batch := some (b.resolveNewDeposits numDeposits) }

/-- `ProcessMaxRetriesOnElrond` (bridgeExecutor.go:304-312): `max` is the
value returned by the Elrond client's
`GetMaxNumberOfRetriesOnQuorumReached`. -/
def ProcessMaxRetriesOnElrond (max : Nat) (st : BridgeExecutorState) :
    Bool × BridgeExecutorState :=
  if st.retriesOnElrond < max then
    (false, { st with retriesOnElrond := st.retriesOnElrond + 1 })
  else
    (true, st)

/-- `ResetRetriesCountOnElrond` (bridgeExecutor.go:315-317). -/
def ResetRetriesCountOnElrond (st : BridgeExecutorState) : BridgeExecutorState :=
  { st with retriesOnElrond := 0 }

/-- `ProcessMaxRetriesOnEthereum` (bridgeExecutor.go:388-396). -/
def ProcessMaxRetriesOnEthereum (max : Nat) (st : BridgeExecutorState) :
    Bool × BridgeExecutorState :=
  if st.retriesOnEthereum < max then
    (false, { st with retriesOnEthereum := st.retriesOnEthereum + 1 })
  else
    (true, st)

/-- `ResetRetriesCountOnEthereum` (bridgeExecutor.go:399-401). -/
def ResetRetriesCountOnEthereum (st : BridgeExecutorState) : BridgeExecutorState :=
  { st with retriesOnEthereum := 0 }

/-- The executor state after `k` successive `ProcessMaxRetriesOnElrond`
calls (no reset in between). -/
def elrondRetryState (max : Nat) (st0 : BridgeExecutorState) : Nat → BridgeExecutorState
  | 0 => st0
  | k + 1 => (ProcessMaxRetriesOnElrond max (elrondRetryState max st0 k)).2

/-- The executor state after `k` successive `ProcessMaxRetriesOnEthereum`
calls (no reset in between). -/
def ethereumRetryState (max : Nat) (st0 : BridgeExecutorState) : Nat → BridgeExecutorState
  | 0 => st0
  | k + 1 => (ProcessMaxRetriesOnEthereum max (ethereumRetryState max st0 k)).2

end MxBridge

namespace MxBridge.Topology

/-- Modelled from the spec: `hashRandomSelector` (its file is not among
the sources) implements, per §4.3, a fixed deterministic pseudo-random
function over the 64-bit seed, identical on all relayers.  A Knuth
multiplicative mixer on the 64-bit domain stands in for it. -/
def hashSeed (seed : Nat) : Nat := (seed * 2654435761 + 1) % U64

/-- Modelled from the spec: `hashRandomSelector.randomInt` derives the
index `hash(seed) mod max` (spec §4.3); its caller guarantees
`max > 0`. -/
def randomInt (seed max : Nat) : Nat := hashSeed seed % max

/-- Go division of `int64` values truncates toward zero. -/
def goDivInt64 (a b : Int) : Int := Int.tdiv a b

/-- Go conversion `uint64(x)` of an `int64` reinterprets the two's
complement bit pattern, i.e. reduces modulo `2 ^ 64`. -/
def uint64OfInt64 (x : Int) : Nat := (x % (U64 : Int)).toNat

/-- The seed computed by `MyTurnAsLeader` (topologyHandler.go:53):
`uint64(t.timer.NowUnix() / int64(t.intervalForLeader.Seconds()))`.
`intervalSeconds` is the (already truncated) `int64` value of
`intervalForLeader.Seconds()`, positive by the constructor check. -/
def leaderSeed (nowUnix : Int) (intervalSeconds : Nat) : Nat :=
  uint64OfInt64 (goDivInt64 nowUnix (intervalSeconds : Int))

/-- `MyTurnAsLeader` (topologyHandler.go:45-58): with no public keys the
answer is `false`; otherwise the key at index
`randomInt seed numberOfPeers` is compared byte-wise with this relayer's
own address bytes. -/
def MyTurnAsLeader (sortedPublicKeys : List (List Nat)) (nowUnix : Int)
    (intervalSeconds : Nat) (addressBytes : List Nat) : Bool :=
  if sortedPublicKeys.length = 0 then
    false
  else
    let seed := leaderSeed nowUnix intervalSeconds
    let index := randomInt seed sortedPublicKeys.length
    decide (sortedPublicKeys.getD index [] = addressBytes)

/-- The leader predicate exactly as the specification words it
(§4.3 / claim): `seed = floor(now_unix / IntervalForLeader_seconds)`
taken as a 64-bit value, index `hash(seed) mod N`, leader iff the indexed
key equals the own key bytes.  (`Int.fdiv` is floor division.) -/
def leaderPerSpec (sortedPublicKeys : List (List Nat)) (nowUnix : Int)
    (intervalSeconds : Nat) (addressBytes : List Nat) : Bool :=
  if sortedPublicKeys.length = 0 then
    false
  else
    let seed := uint64OfInt64 (Int.fdiv nowUnix (intervalSeconds : Int))
    let index := randomInt seed sortedPublicKeys.length
    decide (sortedPublicKeys.getD index [] = addressBytes)

end MxBridge.Topology

namespace MxBridge.Steps

/-- Step identifiers of the two v2 half-bridge state machines, as a sum
type (spec §9, tagged states).  Start identifiers are fixed by
`factory/ethElrondBridgeComponents.go` (lines 593, 629). -/
inductive StepIdentifier where
  | gettingPendingBatchFromEthereum : StepIdentifier
  | proposingTransferOnElrond : StepIdentifier
  | signingProposedTransferOnElrond : StepIdentifier
  | gettingPendingBatchFromElrond : StepIdentifier
  | proposingSetStatusOnElrond : StepIdentifier
  | signingProposedSetStatusOnElrond : StepIdentifier
  | waitingForQuorumOnTransfer : StepIdentifier
  | performingTransfer : StepIdentifier
deriving DecidableEq, Repr

instance {ε α : Type} [DecidableEq ε] [DecidableEq α] : DecidableEq (Except ε α) :=
  fun x y =>
    match x, y with
    | Except.ok a, Except.ok b =>
        if h : a = b then isTrue (by rw [h]) else isFalse (fun hc => h (Except.ok.inj hc))
    | Except.error a, Except.error b =>
        if h : a = b then isTrue (by rw [h]) else isFalse (fun hc => h (Except.error.inj hc))
    | Except.ok _, Except.error _ => isFalse (fun hc => Except.noConfusion hc)
    | Except.error _, Except.ok _ => isFalse (fun hc => Except.noConfusion hc)

/-- One observable call a step makes on its bridge executor, with the
outcome the executor reported.  A step execution produces the ordered
list of such calls. -/
inductive StepEvent where
  | getStoredBatch (isNil : Bool) : StepEvent
  | processMaxRetries (exhausted : Bool) : StepEvent
  | processQuorumReached (result : Except BridgeError Bool) : StepEvent
  | wasProposed (result : Except BridgeError Bool) : StepEvent
  | myTurnAsLeader (result : Bool) : StepEvent
  | propose (result : Option BridgeError) : StepEvent
deriving DecidableEq, Repr

/-- Outcomes the executor reports to one execution of a propose step. -/
structure ProposeOracle where
  storedBatch : Option TransferBatch
  wasProposed : Except BridgeError Bool
  isLeader : Bool
  proposeResult : Option BridgeError

/-- Modelled from the spec: the v2 step implementations are not among the
sources (only their tests are).  Spec §4.2.1 step 2 — if already
proposed, skip ahead to signing; else, if leader, submit the proposal and
go to signing; a relayer that is not the leader stays; a nil stored batch
or a failed call resets to the initial step (§4.2.3, §7).  The transitions
match the step tests kept in the sources
(`TestExecute_ProposeSetStatus`). -/
def proposeStepCore (selfStep initialStep signingStep : StepIdentifier)
    (o : ProposeOracle) : StepIdentifier × List StepEvent :=
  match o.storedBatch with
  | none => (initialStep, [StepEvent.getStoredBatch true])
  | some _ =>
      match o.wasProposed with
      | Except.error e =>
          (initialStep,
            [StepEvent.getStoredBatch false, StepEvent.wasProposed (Except.error e)])
      | Except.ok true =>
          (signingStep,
            [StepEvent.getStoredBatch false, StepEvent.wasProposed (Except.ok true)])
      | Except.ok false =>
          if o.isLeader then
            match o.proposeResult with
            | some e =>
                (initialStep,
                  [StepEvent.getStoredBatch false, StepEvent.wasProposed (Except.ok false),
                    StepEvent.myTurnAsLeader true, StepEvent.propose (some e)])
            | none =>
                (signingStep,
                  [StepEvent.getStoredBatch false, StepEvent.wasProposed (Except.ok false),
                    StepEvent.myTurnAsLeader true, StepEvent.propose none])
          else
            (selfStep,
              [StepEvent.getStoredBatch false, StepEvent.wasProposed (Except.ok false),
                StepEvent.myTurnAsLeader false])

/-- The propose-transfer step of the Ethereum→Elrond v2 machine
(modelled from the spec, see `proposeStepCore`). -/
def proposeTransferStepExecute (o : ProposeOracle) : StepIdentifier × List StepEvent :=
  proposeStepCore StepIdentifier.proposingTransferOnElrond
    StepIdentifier.gettingPendingBatchFromEthereum
    StepIdentifier.signingProposedTransferOnElrond o

/-- The propose-set-status step of the Elrond→Ethereum v2 machine
(modelled from the spec, see `proposeStepCore`; transitions fixed by
`TestExecute_ProposeSetStatus`). -/
def proposeSetStatusStepExecute (o : ProposeOracle) : StepIdentifier × List StepEvent :=
  proposeStepCore StepIdentifier.proposingSetStatusOnElrond
    StepIdentifier.gettingPendingBatchFromElrond
    StepIdentifier.signingProposedSetStatusOnElrond o

/-- Outcomes the executor reports to one execution of the
wait-for-quorum-on-transfer step. -/
structure WaitForQuorumOracle where
  maxRetriesReached : Bool
  quorumReached : Except BridgeError Bool

/-- Modelled from the spec: the step implementation is not among the
sources (only `TestExecute_WaitForQuorumOnTransfer` is).  Spec §4.2.1
step 4 — if the retry budget is exhausted, reset to the initial step;
otherwise poll the quorum: an error resets, quorum reached moves to
performing the transfer, otherwise stay.  Exactly the four transitions
the test asserts. -/
def waitForQuorumOnTransferStepExecute (o : WaitForQuorumOracle) :
    StepIdentifier × List StepEvent :=
  if o.maxRetriesReached then
    (StepIdentifier.gettingPendingBatchFromElrond, [StepEvent.processMaxRetries true])
  else
    match o.quorumReached with
    | Except.error e =>
        (StepIdentifier.gettingPendingBatchFromElrond,
          [StepEvent.processMaxRetries false,
            StepEvent.processQuorumReached (Except.error e)])
    | Except.ok true =>
        (StepIdentifier.performingTransfer,
          [StepEvent.processMaxRetries false,
            StepEvent.processQuorumReached (Except.ok true)])
    | Except.ok false =>
        (StepIdentifier.waitingForQuorumOnTransfer,
          [StepEvent.processMaxRetries false,
            StepEvent.processQuorumReached (Except.ok false)])

end MxBridge.Steps

namespace MxBridge.P2P

/-- `p2p.SignedMessage` (spec §3): payload, declared sender public key
bytes, signature over (payload ∥ nonce) and the per-sender monotonic
nonce. -/
structure SignedMessage where
  payload : List Nat
  publicKeyBytes : List Nat
  signature : List Nat
  nonce : Nat
deriving DecidableEq, Repr

/-- The broadcaster's message topics (`join/1`, `sign/1`); `other` stands
for any further registered topic, on which the dispatch switch does
nothing. -/
inductive Topic where
  | join : Topic
  | sign : Topic
  | other : Topic
deriving DecidableEq, Repr

/-- An inbound network message as the messenger delivers it: its topic,
the unmarshalling outcome of its data (`none` = malformed) and the
network peer it came from. -/
structure P2PMessage where
  topic : Topic
  data : Option SignedMessage
  peer : Nat
deriving DecidableEq, Repr

/-- Errors of the inbound path. -/
inductive BroadcastError where
  | unmarshalFailed : BroadcastError
  | nonceTooLow : BroadcastError
  | invalidSignature : BroadcastError
  | peerNotWhitelisted : BroadcastError
deriving DecidableEq, Repr

/-- The broadcaster state the inbound path touches: the per-sender
last-accepted-nonce tracker (`relayerMessageHandler`), the signature set
keyed by sender public key and the recorded joined senders
(`signaturesHolder`). -/
structure BroadcasterState where
  nonces : List (List Nat × Nat)
  signedMessages : List (List Nat × SignedMessage)
  joinedAddresses : List (List Nat)
deriving DecidableEq, Repr

/-- Last accepted nonce for a sender; 0 when the sender was never seen
(the Go map zero value). -/
def lookupNonce (m : List (List Nat × Nat)) (pk : List Nat) : Nat :=
  match m with
  | [] => 0
  | (k, v) :: rest => if k = pk then v else lookupNonce rest pk

/-- Map update for the nonce tracker. -/
def setNonce (m : List (List Nat × Nat)) (pk : List Nat) (n : Nat) :
    List (List Nat × Nat) :=
  match m with
  | [] => [(pk, n)]
  | (k, v) :: rest => if k = pk then (pk, n) :: rest else (k, v) :: setNonce rest pk n

/-- Modelled from the spec: `relayerMessageHandler.preProcessMessage` is
not among the sources.  Per §4.4 it deserialises the wire bytes, rejects
a nonce that is not strictly greater than the last accepted one from the
sender and rejects a signature that does not verify over
(payload ∥ nonce); on success it records the message nonce as the
sender's last accepted nonce.  The tracker update can live nowhere else:
`ProcessReceivedMessage` (broadcaster.go:116-144) performs no tracker
operation itself and the signature holder has no access to the tracker.
`verify` abstracts the single-signer verification. -/
def preProcessMessage (verify : SignedMessage → Bool) (st : BroadcasterState)
    (data : Option SignedMessage) :
    Except BroadcastError (SignedMessage × BroadcasterState) :=
  match data with
  | none => Except.error BroadcastError.unmarshalFailed
  | some msg =>
      if msg.nonce ≤ lookupNonce st.nonces msg.publicKeyBytes then
        Except.error BroadcastError.nonceTooLow
      else if verify msg then
        Except.ok (msg, { st with nonces := setNonce st.nonces msg.publicKeyBytes msg.nonce })
      else
        Except.error BroadcastError.invalidSignature

/-- Insert a signed message into the signature set keyed by its sender,
overwriting any prior entry from the same sender. -/
def insertSignedMessage (msg : SignedMessage) :
    List (List Nat × SignedMessage) → List (List Nat × SignedMessage)
  | [] => [(msg.publicKeyBytes, msg)]
  | (k, v) :: rest =>
      if k = msg.publicKeyBytes then (k, msg) :: rest
      else (k, v) :: insertSignedMessage msg rest

/-- Modelled from the spec: `signaturesHolder.addSignedMessage` (not
among the sources) inserts the message into the signature set,
overwriting any prior entry from the same sender (§3, §4.4). -/
def addSignedMessage (st : BroadcasterState) (msg : SignedMessage) : BroadcasterState :=
  { st with signedMessages := insertSignedMessage msg st.signedMessages }

/-- Modelled from the spec: `signaturesHolder.addJoinedMessage` (not
among the sources) records the joining sender (§4.4). -/
def addJoinedMessage (st : BroadcasterState) (msg : SignedMessage) : BroadcasterState :=
  { st with
    joinedAddresses :=
      if msg.publicKeyBytes ∈ st.joinedAddresses then st.joinedAddresses
      else st.joinedAddresses ++ [msg.publicKeyBytes] }

/-- Modelled from the spec: `signaturesHolder.storedSignedMessages` (not
among the sources) returns the currently stored signed messages. -/
def storedSignedMessages (st : BroadcasterState) : List SignedMessage :=
  st.signedMessages.map (fun p => p.2)

/-- One outbound network send: topic, the (re-marshalled) signed message
and the destination peer. -/
structure SentMessage where
  topic : Topic
  msg : SignedMessage
  peer : Nat
deriving DecidableEq, Repr

/-- `broadcastCurrentSignatures` together with `sendSignedMessageToPeer`
(broadcaster.go:146-166): every currently stored signed message is
marshalled individually and sent to the given peer on the sign topic. -/
def broadcastCurrentSignatures (st : BroadcasterState) (peerId : Nat) : List SentMessage :=
  (storedSignedMessages st).map (fun msg => SentMessage.mk Topic.sign msg peerId)

/-- `ProcessReceivedMessage` (broadcaster.go:116-144): pre-process, then
the whitelist check on the declared sender key, then dispatch by topic;
the result is the returned error (if any), the new state and the ordered
outbound sends. -/
def ProcessReceivedMessage (verify : SignedMessage → Bool)
    (whitelisted : List Nat → Bool) (st : BroadcasterState) (message : P2PMessage) :
    Option BroadcastError × BroadcasterState × List SentMessage :=
  match preProcessMessage verify st message.data with
  | Except.error e => (some e, st, [])
  | Except.ok (msg, st1) =>
      if whitelisted msg.publicKeyBytes then
        match message.topic with
        | Topic.join =>
            let st2 := addJoinedMessage st1 msg
            (none, st2, broadcastCurrentSignatures st2 message.peer)
        | Topic.sign => (none, addSignedMessage st1 msg, [])
        | Topic.other => (none, st1, [])
      else
        (some BroadcastError.peerNotWhitelisted, st1, [])

end MxBridge.P2P

namespace MxBridge.BatchProcessor

/-- `common.BytesToAddress`: an Ethereum address is the byte slice
cropped from the left to 20 bytes, left-padded with zeros. -/
def bytesToAddress (b : List Nat) : List Nat :=
  let t := if b.length > 20 then b.drop (b.length - 20) else b
  List.replicate (20 - t.length) 0 ++ t

/-- `batchProcessor.ArgListsBatch` (batchProcessor.go:9-15).  Addresses
are value arrays in Go, so they carry no reference identity; the
converted token bytes, amounts and nonces are references. -/
structure ArgListsBatch where
  tokens : List (List Nat)
  recipients : List (List Nat)
  convertedTokenBytes : List BytesRef
  amounts : List BigIntRef
  nonces : List BigIntRef
deriving DecidableEq, Repr

/-- One iteration of the `ExtractList` loop (batchProcessor.go:20-34):
appends the recipient address of the deposit's `ToBytes`, the token
address of its `ConvertedTokenBytes`, a **freshly allocated** copy of the
amount (`big.NewInt(0).Set`), a freshly allocated `big.Int` holding the
nonce, and the deposit's `ConvertedTokenBytes` slice **itself** (the
reference, not a copy).  `ctr` is the allocator: each iteration consumes
two fresh identities. -/
def extractStep (acc : ArgListsBatch × Nat) (dt : Deposit) : ArgListsBatch × Nat :=
  let arg := acc.1
  let ctr := acc.2
  ({ tokens := arg.tokens ++ [bytesToAddress dt.convertedTokenBytes.data],
     recipients := arg.recipients ++ [bytesToAddress dt.toBytes.data],
     convertedTokenBytes := arg.convertedTokenBytes ++ [dt.convertedTokenBytes],
     amounts := arg.amounts ++ [BigIntRef.mk ctr dt.amount.val],
     nonces := arg.nonces ++ [BigIntRef.mk (ctr + 1) (dt.nonce : Int)] },
    ctr + 2)

/-- All reference identities reachable from a batch. -/
def batchRefIds (batch : TransferBatch) : List Nat :=
  batch.deposits.flatMap
    (fun dt => [dt.toBytes.id, dt.convertedTokenBytes.id, dt.amount.id])

/-- The first identity strictly above every identity in the batch; fresh
heap allocations are modelled as drawing successive identities from
here. -/
def freshBase (batch : TransferBatch) : Nat :=
  (batchRefIds batch).foldr Nat.max 0 + 1

/-- `ExtractList` (batchProcessor.go:17-37): folds the loop body over the
deposits in order, starting from empty lists, and always returns a nil
error. -/
def ExtractList (batch : TransferBatch) : Except BridgeError ArgListsBatch :=
  Except.ok
    (batch.deposits.foldl extractStep
      (ArgListsBatch.mk [] [] [] [] [], freshBase batch)).1

/-- All reference identities reachable from an `ArgListsBatch` result. -/
def resultRefIds (arg : ArgListsBatch) : List Nat :=
  arg.convertedTokenBytes.map BytesRef.id ++ arg.amounts.map BigIntRef.id ++
    arg.nonces.map BigIntRef.id

/-- The `ArgListsBatch` value `ExtractList` produces (it always succeeds,
so the error arm is unreachable). -/
def extractedArg (batch : TransferBatch) : ArgListsBatch :=
  match ExtractList batch with
  | Except.ok arg => arg
  | Except.error _ => ArgListsBatch.mk [] [] [] [] []

/-- The no-aliasing reading of the claim: no reference reachable from the
result of `ExtractList` shares an identity with a reference of the input
batch, so no mutation through the result can alter the batch. -/
def resultDisjointFromBatch (batch : TransferBatch) : Prop :=
  ∀ i ∈ resultRefIds (extractedArg batch), i ∉ batchRefIds batch

instance (batch : TransferBatch) : Decidable (resultDisjointFromBatch batch) := by
  unfold resultDisjointFromBatch
  infer_instance

end MxBridge.BatchProcessor

namespace MxBridge.BatchProcessor

/-- The amounts list the `ExtractList` loop builds from allocator
position `ctr`: fresh identities `ctr, ctr + 2, …` holding copies of the
deposit amounts. -/
def amountsFrom (ctr : Nat) : List Deposit → List BigIntRef
  | [] => []
  | dt :: rest => BigIntRef.mk ctr dt.amount.val :: amountsFrom (ctr + 2) rest

/-- The nonces list the `ExtractList` loop builds from allocator position
`ctr`: fresh identities `ctr + 1, ctr + 3, …` holding the deposit
nonces. -/
def noncesFrom (ctr : Nat) : List Deposit → List BigIntRef
  | [] => []
  | dt :: rest => BigIntRef.mk (ctr + 1) (dt.nonce : Int) :: noncesFrom (ctr + 2) rest

end MxBridge.BatchProcessor

namespace MxBridge

/-- Fallback values for total list indexing in theorem statements. -/
def dummyDeposit : Deposit := Deposit.mk 0 (BytesRef.mk 0 []) (BytesRef.mk 0 []) (BigIntRef.mk 0 0)

/-- Fallback `big.Int` reference for total list indexing. -/
def dummyBigInt : BigIntRef := BigIntRef.mk 0 0

/-- Fallback byte-slice reference for total list indexing. -/
def dummyBytes : BytesRef := BytesRef.mk 0 []

/-- Scenario S1 of the spec: batch 12345 with deposit nonces 2 and 3. -/
def s1Batch : TransferBatch :=
  TransferBatch.mk 12345
    [Deposit.mk 2 (BytesRef.mk 0 [1]) (BytesRef.mk 1 [2]) (BigIntRef.mk 2 50),
     Deposit.mk 3 (BytesRef.mk 3 [1]) (BytesRef.mk 4 [2]) (BigIntRef.mk 5 70)]
    []

/-- An executor state holding the S1 batch. -/
def s1State : BridgeExecutorState := BridgeExecutorState.mk (some s1Batch) 0 [] 0 0

/-- An executor state with no stored batch. -/
def nilBatchState : BridgeExecutorState := BridgeExecutorState.mk none 0 [] 0 0

/-- A one-deposit batch whose references carry identities 0, 1 and 2;
used to exhibit the `ConvertedTokenBytes` aliasing of `ExtractList`. -/
def aliasBatch : TransferBatch :=
  TransferBatch.mk 1 [Deposit.mk 2 (BytesRef.mk 0 [1]) (BytesRef.mk 1 [2]) (BigIntRef.mk 2 5)] []

end MxBridge

namespace MxBridge.P2P

/-- An empty broadcaster state. -/
def emptyBroadcasterState : BroadcasterState := BroadcasterState.mk [] [] []

/-- A well-formed signed message from the sender with key bytes `[7]`. -/
def sampleMsg : SignedMessage := SignedMessage.mk [1] [7] [9] 1

/-- A signed message already stored by the broadcaster (sender `[3]`). -/
def storedMsg : SignedMessage := SignedMessage.mk [4] [3] [8] 5

/-- A broadcaster state holding one stored signature from sender `[3]`. -/
def oneSigState : BroadcasterState := BroadcasterState.mk [] [([3], storedMsg)] []

end MxBridge.P2P

namespace MxBridge

theorem U64_pos : 0 < U64 := by norm_num [U64]

/-- The nonce walk succeeds from expected nonce `s` exactly when the
`i`-th deposit nonce is `s + i` (with `uint64` wrap). -/
theorem verifyFrom_eq_none_iff (ds : List Deposit) (s : Nat) (hs : s < U64) :
    verifyDepositNoncesFrom s ds = none ↔
      ∀ i (h : i < ds.length), (ds.get ⟨i, h⟩).nonce = (s + i) % U64 := by
  induction ds generalizing s with
  | nil => simp [verifyDepositNoncesFrom]
  | cons dt rest ih =>
    rw [verifyDepositNoncesFrom]
    by_cases h0 : dt.nonce = s
    · rw [if_neg (by simp [h0])]
      rw [ih ((s + 1) % U64) (Nat.mod_lt _ U64_pos)]
      constructor
      · intro hr i h
        match i with
        | 0 => simpa [Nat.mod_eq_of_lt hs] using h0
        | Nat.succ j =>
            have hj : j < rest.length := by simpa using h
            have := hr j hj
            rw [Nat.mod_add_mod] at this
            have e : s + 1 + j = s + (j + 1) := by omega
            rw [e] at this
            simpa using this
      · intro hall j hj
        have := hall (j + 1) (by simpa using hj)
        rw [Nat.mod_add_mod]
        have e : s + 1 + j = s + (j + 1) := by omega
        rw [e]
        simpa using this
    · rw [if_pos (by simpa using h0)]
      simp only [reduceCtorEq, false_iff, not_forall]
      refine ⟨0, by simp, ?_⟩
      simpa [Nat.mod_eq_of_lt hs] using h0

/-- The nonce walk either succeeds or reports an invalid-deposit-nonce
error; no other error shape occurs. -/
theorem verifyFrom_error_shape (ds : List Deposit) (s : Nat) :
    verifyDepositNoncesFrom s ds = none ∨
      ∃ g e, verifyDepositNoncesFrom s ds = some (BridgeError.invalidDepositNonce g e) := by
  induction ds generalizing s with
  | nil => left; rfl
  | cons dt rest ih =>
    rw [verifyDepositNoncesFrom]
    by_cases h0 : dt.nonce = s
    · rw [if_neg (by simp [h0])]
      exact ih ((s + 1) % U64)
    · rw [if_pos (by simpa using h0)]
      exact Or.inr ⟨dt.nonce, s, rfl⟩

/-- C1: for a stored batch and a last-executed nonce `L` reported by the
chain client, `VerifyLastDepositNonceExecutedOnEthereumBatch` succeeds
iff the deposit nonces are exactly `L+1, L+2, …` in order (in `uint64`
arithmetic); after success the first nonce is `L+1` and consecutive
nonces differ by one; any deviation yields an invalid-deposit-nonce
error. -/
theorem C1_verifyDepositNonces_contiguity (st : BridgeExecutorState) (b : TransferBatch)
    (L : Nat) (hb : st.batch = some b) :
    (VerifyLastDepositNonceExecutedOnEthereumBatch st (Except.ok L) = none ↔
      ∀ i (h : i < b.deposits.length),
        (b.deposits.get ⟨i, h⟩).nonce = (L + 1 + i) % U64) ∧
    (VerifyLastDepositNonceExecutedOnEthereumBatch st (Except.ok L) = none →
      (∀ h0 : 0 < b.deposits.length, (b.deposits.get ⟨0, h0⟩).nonce = (L + 1) % U64) ∧
      ∀ i (h : i + 1 < b.deposits.length),
        (b.deposits.get ⟨i + 1, h⟩).nonce =
          ((b.deposits.get ⟨i, by omega⟩).nonce + 1) % U64) ∧
    (VerifyLastDepositNonceExecutedOnEthereumBatch st (Except.ok L) ≠ none →
      ∃ got expected, VerifyLastDepositNonceExecutedOnEthereumBatch st (Except.ok L) =
        some (BridgeError.invalidDepositNonce got expected)) := by
  have hunf : VerifyLastDepositNonceExecutedOnEthereumBatch st (Except.ok L) =
      verifyDepositNoncesFrom ((L + 1) % U64) b.deposits := by
    simp [VerifyLastDepositNonceExecutedOnEthereumBatch, hb, verifyDepositNonces]
  have hiff := verifyFrom_eq_none_iff b.deposits ((L + 1) % U64) (Nat.mod_lt _ U64_pos)
  have hmod : ∀ i : Nat, ((L + 1) % U64 + i) % U64 = (L + 1 + i) % U64 := by
    intro i; rw [Nat.mod_add_mod]
  refine ⟨?_, ?_, ?_⟩
  · rw [hunf, hiff]
    constructor
    · intro hall i h; rw [← hmod i]; exact hall i h
    · intro hall i h; rw [hmod i]; exact hall i h
  · intro hok
    rw [hunf] at hok
    have hall := (hiff.mp hok)
    constructor
    · intro h0
      have := hall 0 h0
      simpa using this
    · intro i h
      have h1 := hall (i + 1) h
      have h2 := hall i (by omega)
      rw [h1, h2]
      have e1 : ((L + 1) % U64 + (i + 1)) % U64 = ((L + 1) % U64 + i + 1) % U64 := by
        rw [Nat.add_assoc]
      have e2 : (((L + 1) % U64 + i) % U64 + 1) % U64 = ((L + 1) % U64 + i + 1) % U64 :=
        Nat.mod_add_mod ((L + 1) % U64 + i) U64 1
      rw [e1, e2]
  · intro hne
    rw [hunf] at hne ⊢
    rcases verifyFrom_error_shape b.deposits ((L + 1) % U64) with h | h
    · exact absurd h hne
    · exact h

/-- C1 witness: the S1 scenario batch (nonces 2, 3) verifies against
last-executed nonce 1. -/
theorem C1_verifyDepositNonces_contiguity_witness :
    VerifyLastDepositNonceExecutedOnEthereumBatch s1State (Except.ok 1) = none :=
  ((C1_verifyDepositNonces_contiguity s1State s1Batch 1 rfl).1).mpr (by decide)

end MxBridge

namespace MxBridge.Topology

/-- C2 counterexample: at clock `-1` with a 2-second leader interval and
two relayers, the code elects the relayer that the specification formula
(floor division) does not: Go computes `uint64(-1 / 2) = 0` (truncation
toward zero) while `floor(-1 / 2) = -1` reinterprets to `2^64 - 1`, and
the two seeds hash to different indices. -/
theorem C2_counterexample :
    MyTurnAsLeader [[0], [1]] (-1) 2 [1] = true ∧
      leaderPerSpec [[0], [1]] (-1) 2 [1] = false := by
  constructor
  · decide
  · decide

/-- C2 (amended): for a non-empty sorted key list, any clock value and a
positive whole-second interval, `MyTurnAsLeader` returns true iff the key
at index `hash(seed) mod N` equals the own key bytes, where `seed` is the
unsigned 64-bit reinterpretation of the Go *truncated* quotient
`now_unix / interval_seconds`; the index is always in range, and for
non-negative clock values the seed coincides with the specification's
floored quotient.  Determinism over the four inputs is immediate: the
embedding is a pure function of exactly those inputs. -/
theorem C2_myTurnAsLeader_amended (keys : List (List Nat)) (now : Int) (k : Nat)
    (own : List Nat) (hne : keys ≠ []) (hk : 0 < k) :
    (MyTurnAsLeader keys now k own = true ↔
      keys.getD (randomInt (leaderSeed now k) keys.length) [] = own) ∧
    randomInt (leaderSeed now k) keys.length < keys.length ∧
    (0 ≤ now → leaderSeed now k = uint64OfInt64 (Int.fdiv now (k : Int))) := by
  have hlen : 0 < keys.length := List.length_pos.mpr hne
  refine ⟨?_, ?_, ?_⟩
  · rw [MyTurnAsLeader]
    rw [if_neg (by omega)]
    exact decide_eq_true_iff
  · exact Nat.mod_lt _ hlen
  · intro hnow
    rw [leaderSeed, goDivInt64]
    congr 1
    exact (Int.fdiv_eq_tdiv hnow (by positivity)).symm

/-- C2 witness: among the two keys `[5]` and `[9]`, at clock 100 with a
3-second interval, the key `[5]` is elected. -/
theorem C2_myTurnAsLeader_amended_witness :
    MyTurnAsLeader [[5], [9]] 100 3 [5] = true :=
  ((C2_myTurnAsLeader_amended [[5], [9]] 100 3 [5] (by decide) (by decide)).1).mpr (by decide)

end MxBridge.Topology

namespace MxBridge

/-- The Elrond retry counter after `k` calls from a zeroed counter is
`min k max`. -/
theorem elrondRetryState_retries (max : Nat) (st0 : BridgeExecutorState)
    (h0 : st0.retriesOnElrond = 0) (k : Nat) :
    (elrondRetryState max st0 k).retriesOnElrond = min k max := by
  induction k with
  | zero => simpa [elrondRetryState] using h0
  | succ k ih =>
    rw [elrondRetryState, ProcessMaxRetriesOnElrond]
    by_cases h : (elrondRetryState max st0 k).retriesOnElrond < max
    · rw [if_pos h]
      show (elrondRetryState max st0 k).retriesOnElrond + 1 = min (k + 1) max
      rw [ih] at h ⊢
      omega
    · rw [if_neg h]
      show (elrondRetryState max st0 k).retriesOnElrond = min (k + 1) max
      rw [ih] at h ⊢
      omega

/-- The Ethereum retry counter after `k` calls from a zeroed counter is
`min k max`. -/
theorem ethereumRetryState_retries (max : Nat) (st0 : BridgeExecutorState)
    (h0 : st0.retriesOnEthereum = 0) (k : Nat) :
    (ethereumRetryState max st0 k).retriesOnEthereum = min k max := by
  induction k with
  | zero => simpa [ethereumRetryState] using h0
  | succ k ih =>
    rw [ethereumRetryState, ProcessMaxRetriesOnEthereum]
    by_cases h : (ethereumRetryState max st0 k).retriesOnEthereum < max
    · rw [if_pos h]
      show (ethereumRetryState max st0 k).retriesOnEthereum + 1 = min (k + 1) max
      rw [ih] at h ⊢
      omega
    · rw [if_neg h]
      show (ethereumRetryState max st0 k).retriesOnEthereum = min (k + 1) max
      rw [ih] at h ⊢
      omega

/-- C7: a `ProcessMaxRetries` call increments the counter and reports
not-exhausted exactly while the counter is strictly below the client's
maximum `max`, and reports exhausted (without incrementing) once the
counter has reached `max`; starting from a zeroed counter the `(k+1)`-th
call reports exhausted iff `max ≤ k` (so the first `max` calls report
false and every later call true); the resets zero the counters; with a
budget of 0 already the first call reports exhausted. -/
theorem C7_retry_budget (max k : Nat) (st st0 : BridgeExecutorState)
    (h0 : st0.retriesOnElrond = 0) (h0e : st0.retriesOnEthereum = 0) :
    ((ProcessMaxRetriesOnElrond max st).1 = false ↔ st.retriesOnElrond < max) ∧
    ((ProcessMaxRetriesOnElrond max st).1 = false →
      (ProcessMaxRetriesOnElrond max st).2.retriesOnElrond = st.retriesOnElrond + 1) ∧
    ((ProcessMaxRetriesOnElrond max st).1 = true →
      (ProcessMaxRetriesOnElrond max st).2 = st) ∧
    ((ProcessMaxRetriesOnEthereum max st).1 = false ↔ st.retriesOnEthereum < max) ∧
    ((ProcessMaxRetriesOnEthereum max st).1 = false →
      (ProcessMaxRetriesOnEthereum max st).2.retriesOnEthereum = st.retriesOnEthereum + 1) ∧
    ((ProcessMaxRetriesOnEthereum max st).1 = true →
      (ProcessMaxRetriesOnEthereum max st).2 = st) ∧
    ((ProcessMaxRetriesOnElrond max (elrondRetryState max st0 k)).1 = decide (max ≤ k)) ∧
    ((ProcessMaxRetriesOnEthereum max (ethereumRetryState max st0 k)).1 = decide (max ≤ k)) ∧
    (ResetRetriesCountOnElrond st).retriesOnElrond = 0 ∧
    (ResetRetriesCountOnEthereum st).retriesOnEthereum = 0 ∧
    (max = 0 → (ProcessMaxRetriesOnElrond max st0).1 = true ∧
      (ProcessMaxRetriesOnEthereum max st0).1 = true) := by
  refine ⟨?_, ?_, ?_, ?_, ?_, ?_, ?_, ?_, ?_, ?_, ?_⟩
  · rw [ProcessMaxRetriesOnElrond]
    by_cases h : st.retriesOnElrond < max
    · simp [h]
    · simp [h]
  · intro h
    rw [ProcessMaxRetriesOnElrond] at h ⊢
    by_cases hlt : st.retriesOnElrond < max
    · simp [hlt]
    · simp [hlt] at h
  · intro h
    rw [ProcessMaxRetriesOnElrond] at h ⊢
    by_cases hlt : st.retriesOnElrond < max
    · simp [hlt] at h
    · simp [hlt]
  · rw [ProcessMaxRetriesOnEthereum]
    by_cases h : st.retriesOnEthereum < max
    · simp [h]
    · simp [h]
  · intro h
    rw [ProcessMaxRetriesOnEthereum] at h ⊢
    by_cases hlt : st.retriesOnEthereum < max
    · simp [hlt]
    · simp [hlt] at h
  · intro h
    rw [ProcessMaxRetriesOnEthereum] at h ⊢
    by_cases hlt : st.retriesOnEthereum < max
    · simp [hlt] at h
    · simp [hlt]
  · rw [ProcessMaxRetriesOnElrond, elrondRetryState_retries max st0 h0 k]
    by_cases hk : max ≤ k
    · rw [if_neg (by omega)]
      simp [hk]
    · rw [if_pos (by omega)]
      simp [hk]
  · rw [ProcessMaxRetriesOnEthereum, ethereumRetryState_retries max st0 h0e k]
    by_cases hk : max ≤ k
    · rw [if_neg (by omega)]
      simp [hk]
    · rw [if_pos (by omega)]
      simp [hk]
  · rfl
  · rfl
  · intro hm
    subst hm
    constructor
    · rw [ProcessMaxRetriesOnElrond, if_neg (by omega)]
    · rw [ProcessMaxRetriesOnEthereum, if_neg (by omega)]

/-- C7 witness: with a budget of 2 and a zeroed counter, the third call
reports exhausted. -/
theorem C7_retry_budget_witness :
    (ProcessMaxRetriesOnElrond 2 (elrondRetryState 2 nilBatchState 2)).1 = decide (2 ≤ 2) :=
  (C7_retry_budget 2 2 nilBatchState nilBatchState rfl rfl).2.2.2.2.2.2.1

end MxBridge

namespace MxBridge.Steps

/-- C3: the wait-for-quorum-on-transfer step moves to the
performing-transfer step exactly when the quorum check it performed
reported true; an exhausted retry budget sends it back to the initial
step (and then no quorum check happens); a quorum check reporting false
without error keeps the step in place. -/
theorem C3_waitForQuorum_transitions (o : WaitForQuorumOracle) :
    (StepEvent.processQuorumReached (Except.ok true) ∈
        (waitForQuorumOnTransferStepExecute o).2 →
      (waitForQuorumOnTransferStepExecute o).1 = StepIdentifier.performingTransfer) ∧
    (o.maxRetriesReached = true →
      (waitForQuorumOnTransferStepExecute o).1 =
        StepIdentifier.gettingPendingBatchFromElrond ∧
      ∀ r, StepEvent.processQuorumReached r ∉ (waitForQuorumOnTransferStepExecute o).2) ∧
    (StepEvent.processQuorumReached (Except.ok false) ∈
        (waitForQuorumOnTransferStepExecute o).2 →
      (waitForQuorumOnTransferStepExecute o).1 =
        StepIdentifier.waitingForQuorumOnTransfer) ∧
    ((waitForQuorumOnTransferStepExecute o).1 = StepIdentifier.performingTransfer →
      StepEvent.processQuorumReached (Except.ok true) ∈
        (waitForQuorumOnTransferStepExecute o).2) := by
  obtain ⟨mr, q⟩ := o
  cases mr
  · cases q with
    | error e => simp [waitForQuorumOnTransferStepExecute]
    | ok b => cases b <;> simp [waitForQuorumOnTransferStepExecute]
  · simp [waitForQuorumOnTransferStepExecute]

/-- C3 witness: with the retry budget not exhausted and the quorum check
reporting true, the step moves to performing-transfer. -/
theorem C3_waitForQuorum_transitions_witness :
    (waitForQuorumOnTransferStepExecute
        (WaitForQuorumOracle.mk false (Except.ok true))).1 =
      StepIdentifier.performingTransfer :=
  (C3_waitForQuorum_transitions (WaitForQuorumOracle.mk false (Except.ok true))).1
    (by decide)

/-- In both propose steps, a propose call only ever happens as the last
event of the trace `[stored-batch non-nil, was-proposed false, leader
true, propose _]`, and a was-proposed check reporting true moves straight
to the signing step with no propose call. -/
theorem proposeStepCore_shape (selfS initS signS : StepIdentifier) (o : ProposeOracle) :
    (∀ r, StepEvent.propose r ∈ (proposeStepCore selfS initS signS o).2 →
      (proposeStepCore selfS initS signS o).2 =
        [StepEvent.getStoredBatch false, StepEvent.wasProposed (Except.ok false),
          StepEvent.myTurnAsLeader true, StepEvent.propose r] ∧
      o.wasProposed = Except.ok false ∧ o.isLeader = true) ∧
    (o.storedBatch ≠ none → o.wasProposed = Except.ok true →
      (proposeStepCore selfS initS signS o).1 = signS ∧
      ∀ r, StepEvent.propose r ∉ (proposeStepCore selfS initS signS o).2) := by
  obtain ⟨sb, wp, lead, pr⟩ := o
  cases sb
  · simp [proposeStepCore]
  · cases wp with
    | error e => simp [proposeStepCore]
    | ok b =>
        cases b
        · cases lead
          · simp [proposeStepCore]
          · cases pr <;> simp [proposeStepCore]
        · simp [proposeStepCore]

/-- C4: in every execution of the propose-transfer step and of the
propose-set-status step, a propose call happens only after the
was-already-proposed check reported false and the leader predicate
reported true (the trace is exactly stored-batch, was-proposed false,
leader true, propose); and when the was-proposed check reports true the
step moves to its signing step without any propose call. -/
theorem C4_propose_idempotence (o : ProposeOracle) :
    ((∀ r, StepEvent.propose r ∈ (proposeTransferStepExecute o).2 →
        (proposeTransferStepExecute o).2 =
          [StepEvent.getStoredBatch false, StepEvent.wasProposed (Except.ok false),
            StepEvent.myTurnAsLeader true, StepEvent.propose r] ∧
        o.wasProposed = Except.ok false ∧ o.isLeader = true) ∧
      (o.storedBatch ≠ none → o.wasProposed = Except.ok true →
        (proposeTransferStepExecute o).1 =
          StepIdentifier.signingProposedTransferOnElrond ∧
        ∀ r, StepEvent.propose r ∉ (proposeTransferStepExecute o).2)) ∧
    ((∀ r, StepEvent.propose r ∈ (proposeSetStatusStepExecute o).2 →
        (proposeSetStatusStepExecute o).2 =
          [StepEvent.getStoredBatch false, StepEvent.wasProposed (Except.ok false),
            StepEvent.myTurnAsLeader true, StepEvent.propose r] ∧
        o.wasProposed = Except.ok false ∧ o.isLeader = true) ∧
      (o.storedBatch ≠ none → o.wasProposed = Except.ok true →
        (proposeSetStatusStepExecute o).1 =
          StepIdentifier.signingProposedSetStatusOnElrond ∧
        ∀ r, StepEvent.propose r ∉ (proposeSetStatusStepExecute o).2)) :=
  ⟨proposeStepCore_shape _ _ _ o, proposeStepCore_shape _ _ _ o⟩

/-- C4 witness: a propose-set-status execution that finds the action
already proposed goes to the signing step and issues no proposal. -/
theorem C4_propose_idempotence_witness :
    (proposeSetStatusStepExecute
        (ProposeOracle.mk (some MxBridge.s1Batch) (Except.ok true) true none)).1 =
      StepIdentifier.signingProposedSetStatusOnElrond :=
  ((C4_propose_idempotence
      (ProposeOracle.mk (some MxBridge.s1Batch) (Except.ok true) true none)).2.2
    (by simp) rfl).1

end MxBridge.Steps

namespace MxBridge.P2P

/-- Characterisation of a successful pre-processing: the message is the
deserialised datum, it carried a fresh nonce, the signature verified, and
the returned state differs from the input state only in the nonce
tracker, which now records the message nonce for the sender. -/
theorem preProcessMessage_ok (verify : SignedMessage → Bool) (st : BroadcasterState)
    (data : Option SignedMessage) (msg : SignedMessage) (st1 : BroadcasterState)
    (h : preProcessMessage verify st data = Except.ok (msg, st1)) :
    data = some msg ∧
    st1 = { st with nonces := setNonce st.nonces msg.publicKeyBytes msg.nonce } ∧
    lookupNonce st.nonces msg.publicKeyBytes < msg.nonce ∧
    verify msg = true := by
  cases data with
  | none => exact absurd h (by simp [preProcessMessage])
  | some m =>
      rw [preProcessMessage] at h
      by_cases h1 : m.nonce ≤ lookupNonce st.nonces m.publicKeyBytes
      · rw [if_pos h1] at h
        exact absurd h (by simp)
      · rw [if_neg h1] at h
        by_cases h2 : verify m
        · rw [if_pos h2] at h
          have hm : m = msg ∧
              ({ st with nonces := setNonce st.nonces m.publicKeyBytes m.nonce } :
                BroadcasterState) = st1 := by
            have := Except.ok.inj h
            exact ⟨congrArg Prod.fst this, congrArg Prod.snd this⟩
          obtain ⟨hm1, hm2⟩ := hm
          subst hm1
          refine ⟨rfl, hm2.symm, by omega, h2⟩
        · rw [if_neg h2] at h
          exact absurd h (by simp)

/-- C5 counterexample: a message with a valid signature and a fresh nonce
from a sender that is **not** whitelisted is rejected, yet its nonce has
already been recorded in the per-sender nonce tracker, because the
whitelist check runs only after pre-processing has accepted (and
tracked) the nonce. -/
theorem C5_counterexample :
    (ProcessReceivedMessage (fun _ => true) (fun _ => false) emptyBroadcasterState
        (P2PMessage.mk Topic.sign (some sampleMsg) 0)).1 =
      some BroadcastError.peerNotWhitelisted ∧
    (ProcessReceivedMessage (fun _ => true) (fun _ => false) emptyBroadcasterState
        (P2PMessage.mk Topic.sign (some sampleMsg) 0)).2.1.nonces ≠
      emptyBroadcasterState.nonces := by
  constructor
  · rfl
  · decide

/-- C5 (amended): a message whose pre-processing fails (deserialisation,
stale nonce or bad signature) makes `ProcessReceivedMessage` return that
error with the whole state untouched and nothing sent; a message whose
declared sender is not whitelisted is rejected before any dispatch, with
the signature set and the recorded joiners untouched and nothing sent —
but its sender's nonce tracker entry has already been advanced to the
message nonce by the successful pre-processing. -/
theorem C5_rejection_amended (verify : SignedMessage → Bool)
    (whitelisted : List Nat → Bool) (st : BroadcasterState) (message : P2PMessage) :
    (∀ e, preProcessMessage verify st message.data = Except.error e →
      ProcessReceivedMessage verify whitelisted st message = (some e, st, [])) ∧
    (∀ msg st1, preProcessMessage verify st message.data = Except.ok (msg, st1) →
      whitelisted msg.publicKeyBytes = false →
      ProcessReceivedMessage verify whitelisted st message =
        (some BroadcastError.peerNotWhitelisted, st1, []) ∧
      st1.signedMessages = st.signedMessages ∧
      st1.joinedAddresses = st.joinedAddresses ∧
      st1.nonces = setNonce st.nonces msg.publicKeyBytes msg.nonce) := by
  constructor
  · intro e he
    rw [ProcessReceivedMessage, he]
  · intro msg st1 hok hw
    obtain ⟨-, hst1, -, -⟩ := preProcessMessage_ok verify st message.data msg st1 hok
    refine ⟨?_, ?_, ?_, ?_⟩
    · rw [ProcessReceivedMessage, hok]
      simp [hw]
    · rw [hst1]
    · rw [hst1]
    · rw [hst1]

/-- C5 witness: the amended theorem applied to the non-whitelisted
sample message. -/
theorem C5_rejection_amended_witness :
    ProcessReceivedMessage (fun _ => true) (fun _ => false) emptyBroadcasterState
        (P2PMessage.mk Topic.sign (some sampleMsg) 0) =
      (some BroadcastError.peerNotWhitelisted,
        BroadcasterState.mk [([7], 1)] [] [], []) :=
  ((C5_rejection_amended (fun _ => true) (fun _ => false) emptyBroadcasterState
      (P2PMessage.mk Topic.sign (some sampleMsg) 0)).2 sampleMsg
    (BroadcasterState.mk [([7], 1)] [] []) rfl rfl).1

/-- C6: an accepted (pre-processed and whitelisted) message on the join
topic returns no error, records the joining sender, leaves the stored
signature set unchanged, and sends every currently stored signed
message, one send each, to the joining peer on the sign topic. -/
theorem C6_join_bootstrap (verify : SignedMessage → Bool)
    (whitelisted : List Nat → Bool) (st : BroadcasterState) (message : P2PMessage)
    (msg : SignedMessage) (st1 : BroadcasterState)
    (hpre : preProcessMessage verify st message.data = Except.ok (msg, st1))
    (hw : whitelisted msg.publicKeyBytes = true)
    (ht : message.topic = Topic.join) :
    (ProcessReceivedMessage verify whitelisted st message).1 = none ∧
    msg.publicKeyBytes ∈
      (ProcessReceivedMessage verify whitelisted st message).2.1.joinedAddresses ∧
    (ProcessReceivedMessage verify whitelisted st message).2.2 =
      (storedSignedMessages st).map
        (fun m => SentMessage.mk Topic.sign m message.peer) ∧
    storedSignedMessages (ProcessReceivedMessage verify whitelisted st message).2.1 =
      storedSignedMessages st := by
  obtain ⟨-, hst1, -, -⟩ := preProcessMessage_ok verify st message.data msg st1 hpre
  have hsigs : st1.signedMessages = st.signedMessages := by rw [hst1]
  have hrun : ProcessReceivedMessage verify whitelisted st message =
      (none, addJoinedMessage st1 msg,
        broadcastCurrentSignatures (addJoinedMessage st1 msg) message.peer) := by
    rw [ProcessReceivedMessage, hpre]
    simp [hw, ht]
  have hjoined : (addJoinedMessage st1 msg).signedMessages = st1.signedMessages := rfl
  have hstored : storedSignedMessages (addJoinedMessage st1 msg) =
      storedSignedMessages st := by
    rw [storedSignedMessages, hjoined, hsigs, storedSignedMessages]
  refine ⟨?_, ?_, ?_, ?_⟩
  · rw [hrun]
  · rw [hrun]
    show msg.publicKeyBytes ∈ (addJoinedMessage st1 msg).joinedAddresses
    rw [addJoinedMessage]
    by_cases hmem : msg.publicKeyBytes ∈ st1.joinedAddresses
    · simp [hmem]
    · simp [hmem]
  · rw [hrun]
    show broadcastCurrentSignatures (addJoinedMessage st1 msg) message.peer = _
    rw [broadcastCurrentSignatures, hstored]
  · rw [hrun]
    exact hstored

/-- C6 witness: a joiner's message against a broadcaster holding one
stored signature triggers exactly one send of that signature to the
joiner on the sign topic. -/
theorem C6_join_bootstrap_witness :
    (ProcessReceivedMessage (fun _ => true) (fun _ => true) oneSigState
        (P2PMessage.mk Topic.join (some sampleMsg) 4)).2.2 =
      [SentMessage.mk Topic.sign storedMsg 4] :=
  (C6_join_bootstrap (fun _ => true) (fun _ => true) oneSigState
      (P2PMessage.mk Topic.join (some sampleMsg) 4) sampleMsg
      (BroadcasterState.mk [([7], 1)] [([3], storedMsg)] []) rfl rfl rfl).2.2.1

end MxBridge.P2P

namespace MxBridge

/-- C8 counterexample: `ResolveNewDepositsStatuses` on an executor with
no stored batch does not return the nil-batch error — the operation has
no error result at all and dereferences the nil batch (a Go nil-pointer
panic, the `none` outcome), since bridgeExecutor.go:299-301 performs no
nil guard. -/
theorem C8_counterexample :
    ResolveNewDepositsStatuses nilBatchState 1 = none ∧
      ∀ st2, ResolveNewDepositsStatuses nilBatchState 1 ≠ some st2 := by
  constructor
  · rfl
  · intro st2 h
    exact Option.noConfusion h

/-- C8 (amended): with no stored batch, `StoreBatchFromElrond` of a nil
batch returns the nil-batch error leaving the state unchanged, and every
stored-batch operation **except** `ResolveNewDepositsStatuses` returns
the nil-batch error instead of calling its chain client;
`ResolveNewDepositsStatuses` has no error result and dereferences the
nil stored batch. -/
theorem C8_nilBatch_amended (st : BridgeExecutorState) (hb : st.batch = none)
    (cNat : Except BridgeError Nat) (cBool : Except BridgeError Bool)
    (cBytes : Except BridgeError (List Nat)) (n : Nat) :
    StoreBatchFromElrond st none = (some BridgeError.errNilBatch, st) ∧
    VerifyLastDepositNonceExecutedOnEthereumBatch st cNat =
      some BridgeError.errNilBatch ∧
    GetAndStoreActionIDForProposeTransferOnElrond st cNat =
      ((InvalidActionID, some BridgeError.errNilBatch), st) ∧
    GetAndStoreActionIDForProposeSetStatusFromElrond st cNat =
      ((InvalidActionID, some BridgeError.errNilBatch), st) ∧
    WasTransferProposedOnElrond st cBool = (false, some BridgeError.errNilBatch) ∧
    ProposeTransferOnElrond st cBytes = some BridgeError.errNilBatch ∧
    WasSetStatusProposedOnElrond st cBool = (false, some BridgeError.errNilBatch) ∧
    ProposeSetStatusOnElrond st cBytes = some BridgeError.errNilBatch ∧
    GetBatchStatusesFromEthereum st cBytes = Except.error BridgeError.errNilBatch ∧
    PerformActionOnElrond st cBytes = some BridgeError.errNilBatch ∧
    SignTransferOnEthereum st cBytes = (some BridgeError.errNilBatch, st) ∧
    WasTransferPerformedOnEthereum st cBool = (false, some BridgeError.errNilBatch) ∧
    ResolveNewDepositsStatuses st n = none := by
  refine ⟨rfl, ?_, ?_, ?_, ?_, ?_, ?_, ?_, ?_, ?_, ?_, ?_, ?_⟩ <;>
    simp [VerifyLastDepositNonceExecutedOnEthereumBatch,
      GetAndStoreActionIDForProposeTransferOnElrond,
      GetAndStoreActionIDForProposeSetStatusFromElrond,
      WasTransferProposedOnElrond, ProposeTransferOnElrond,
      WasSetStatusProposedOnElrond, ProposeSetStatusOnElrond,
      GetBatchStatusesFromEthereum, PerformActionOnElrond,
      SignTransferOnEthereum, WasTransferPerformedOnEthereum,
      ResolveNewDepositsStatuses, hb]

/-- C8 witness: the amended theorem applied to the empty executor
state. -/
theorem C8_nilBatch_amended_witness :
    VerifyLastDepositNonceExecutedOnEthereumBatch nilBatchState (Except.ok 0) =
      some BridgeError.errNilBatch :=
  (C8_nilBatch_amended nilBatchState rfl (Except.ok 0) (Except.ok true)
      (Except.ok []) 0).2.1

/-- C9: when the chain client call inside either get-and-store action ID
operation fails, the operation returns the invalid-action-ID sentinel
together with that error and the executor state — stored batch, stored
action ID, message hash and retry counters — is exactly as before; and in
all cases the state is either unchanged or changed only by storing the
action ID a successful client call returned. -/
theorem C9_actionID_error_preserves_state (st : BridgeExecutorState) (e : BridgeError)
    (c : Except BridgeError Nat) (hb : st.batch ≠ none) :
    GetAndStoreActionIDForProposeTransferOnElrond st (Except.error e) =
      ((InvalidActionID, some e), st) ∧
    GetAndStoreActionIDForProposeSetStatusFromElrond st (Except.error e) =
      ((InvalidActionID, some e), st) ∧
    ((GetAndStoreActionIDForProposeTransferOnElrond st c).2 = st ∨
      ∃ a, c = Except.ok a ∧
        (GetAndStoreActionIDForProposeTransferOnElrond st c).2 =
          { st with actionID := a }) ∧
    ((GetAndStoreActionIDForProposeSetStatusFromElrond st c).2 = st ∨
      ∃ a, c = Except.ok a ∧
        (GetAndStoreActionIDForProposeSetStatusFromElrond st c).2 =
          { st with actionID := a }) := by
  obtain ⟨b, hbs⟩ := Option.ne_none_iff_exists.mp hb
  refine ⟨?_, ?_, ?_, ?_⟩
  · simp [GetAndStoreActionIDForProposeTransferOnElrond, ← hbs]
  · simp [GetAndStoreActionIDForProposeSetStatusFromElrond, ← hbs]
  · cases c with
    | error e2 => left; simp [GetAndStoreActionIDForProposeTransferOnElrond, ← hbs]
    | ok a =>
        right
        exact ⟨a, rfl, by simp [GetAndStoreActionIDForProposeTransferOnElrond, ← hbs]⟩
  · cases c with
    | error e2 => left; simp [GetAndStoreActionIDForProposeSetStatusFromElrond, ← hbs]
    | ok a =>
        right
        exact ⟨a, rfl, by simp [GetAndStoreActionIDForProposeSetStatusFromElrond, ← hbs]⟩

/-- C9 witness: a failing client call against the S1 state returns the
sentinel and the error with the state preserved. -/
theorem C9_actionID_error_preserves_state_witness :
    GetAndStoreActionIDForProposeTransferOnElrond s1State
        (Except.error (BridgeError.clientError 9)) =
      ((InvalidActionID, some (BridgeError.clientError 9)), s1State) :=
  (C9_actionID_error_preserves_state s1State (BridgeError.clientError 9)
      (Except.error (BridgeError.clientError 9)) (by simp [s1State])).1

end MxBridge

namespace MxBridge.BatchProcessor

/-- Closed form of the `ExtractList` loop: each output list is the map of
its per-deposit expression over the deposits in order, amounts and nonces
drawing fresh identities from the allocator. -/
theorem extract_foldl_spec (ds : List Deposit) (arg : ArgListsBatch) (ctr : Nat) :
    ds.foldl extractStep (arg, ctr) =
      (ArgListsBatch.mk
        (arg.tokens ++ ds.map (fun dt => bytesToAddress dt.convertedTokenBytes.data))
        (arg.recipients ++ ds.map (fun dt => bytesToAddress dt.toBytes.data))
        (arg.convertedTokenBytes ++ ds.map Deposit.convertedTokenBytes)
        (arg.amounts ++ amountsFrom ctr ds)
        (arg.nonces ++ noncesFrom ctr ds),
        ctr + 2 * ds.length) := by
  induction ds generalizing arg ctr with
  | nil => simp [amountsFrom, noncesFrom]
  | cons dt rest ih =>
      rw [List.foldl_cons]
      rw [show extractStep (arg, ctr) dt =
          (ArgListsBatch.mk
            (arg.tokens ++ [bytesToAddress dt.convertedTokenBytes.data])
            (arg.recipients ++ [bytesToAddress dt.toBytes.data])
            (arg.convertedTokenBytes ++ [dt.convertedTokenBytes])
            (arg.amounts ++ [BigIntRef.mk ctr dt.amount.val])
            (arg.nonces ++ [BigIntRef.mk (ctr + 1) (dt.nonce : Int)]),
            ctr + 2) from rfl]
      rw [ih]
      simp [amountsFrom, noncesFrom, List.append_assoc]
      omega

/-- The extracted argument lists in closed form. -/
theorem extractedArg_eq (batch : TransferBatch) :
    extractedArg batch =
      ArgListsBatch.mk
        (batch.deposits.map (fun dt => bytesToAddress dt.convertedTokenBytes.data))
        (batch.deposits.map (fun dt => bytesToAddress dt.toBytes.data))
        (batch.deposits.map Deposit.convertedTokenBytes)
        (amountsFrom (freshBase batch) batch.deposits)
        (noncesFrom (freshBase batch) batch.deposits) := by
  rw [extractedArg, ExtractList, extract_foldl_spec]
  simp

theorem amountsFrom_length (ds : List Deposit) (ctr : Nat) :
    (amountsFrom ctr ds).length = ds.length := by
  induction ds generalizing ctr with
  | nil => rfl
  | cons dt rest ih => simp [amountsFrom, ih]

theorem noncesFrom_length (ds : List Deposit) (ctr : Nat) :
    (noncesFrom ctr ds).length = ds.length := by
  induction ds generalizing ctr with
  | nil => rfl
  | cons dt rest ih => simp [noncesFrom, ih]

theorem getD_map_of_lt {α β : Type} (l : List α) (f : α → β) (i : Nat) (d : α) (db : β)
    (h : i < l.length) : (l.map f).getD i db = f (l.getD i d) := by
  induction l generalizing i with
  | nil => simp at h
  | cons a t ih =>
      cases i with
      | zero => rfl
      | succ j => simpa using ih j (by simpa using h)

theorem amountsFrom_getD (ds : List Deposit) (ctr i : Nat) (h : i < ds.length) :
    (amountsFrom ctr ds).getD i dummyBigInt =
      BigIntRef.mk (ctr + 2 * i) ((ds.getD i dummyDeposit).amount.val) := by
  induction ds generalizing ctr i with
  | nil => simp at h
  | cons dt rest ih =>
      cases i with
      | zero => simp [amountsFrom]
      | succ j =>
          rw [amountsFrom]
          have hj := ih (ctr + 2) j (by simpa using h)
          simp only [List.getD_cons_succ]
          rw [hj]
          have e : ctr + 2 + 2 * j = ctr + 2 * (j + 1) := by omega
          rw [e]

theorem noncesFrom_getD (ds : List Deposit) (ctr i : Nat) (h : i < ds.length) :
    (noncesFrom ctr ds).getD i dummyBigInt =
      BigIntRef.mk (ctr + 2 * i + 1) (((ds.getD i dummyDeposit).nonce : Int)) := by
  induction ds generalizing ctr i with
  | nil => simp at h
  | cons dt rest ih =>
      cases i with
      | zero => simp [noncesFrom]
      | succ j =>
          rw [noncesFrom]
          have hj := ih (ctr + 2) j (by simpa using h)
          simp only [List.getD_cons_succ]
          rw [hj]
          have e : ctr + 2 + 2 * j + 1 = ctr + 2 * (j + 1) + 1 := by omega
          rw [e]

theorem le_foldr_max (l : List Nat) (x : Nat) (hx : x ∈ l) :
    x ≤ l.foldr Nat.max 0 := by
  induction l with
  | nil => simp at hx
  | cons a t ih =>
      rcases List.mem_cons.mp hx with h | h
      · subst h
        exact Nat.le_max_left _ _
      · exact Nat.le_trans (ih h) (Nat.le_max_right _ _)

theorem mem_batchRefIds_lt_freshBase (b : TransferBatch) (x : Nat)
    (hx : x ∈ batchRefIds b) : x < freshBase b := by
  rw [freshBase]
  have := le_foldr_max (batchRefIds b) x hx
  omega

/-- C10 counterexample: on a one-deposit batch the `ConvertedTokenBytes`
entry of the result is the deposit's own byte slice (same reference
identity), so mutating the result *can* alter the input batch; the
claimed no-aliasing property fails. -/
theorem C10_counterexample : ¬ resultDisjointFromBatch aliasBatch := by decide

/-- C10 (amended): `ExtractList` never fails, and its five lists have the
batch's deposit count and preserve deposit order: position `i` holds the
address of deposit `i`'s recipient bytes, the address of its converted
token bytes, a freshly allocated copy of its amount and a freshly
allocated `big.Int` of its nonce (both with identities outside the
batch, so mutating them cannot alter the batch) — but the
`ConvertedTokenBytes` entry is deposit `i`'s own byte slice, not a
copy. -/
theorem C10_extractList_amended (batch : TransferBatch) :
    ExtractList batch = Except.ok (extractedArg batch) ∧
    (extractedArg batch).recipients.length = batch.deposits.length ∧
    (extractedArg batch).tokens.length = batch.deposits.length ∧
    (extractedArg batch).convertedTokenBytes.length = batch.deposits.length ∧
    (extractedArg batch).amounts.length = batch.deposits.length ∧
    (extractedArg batch).nonces.length = batch.deposits.length ∧
    ∀ i, i < batch.deposits.length →
      (extractedArg batch).recipients.getD i [] =
        bytesToAddress (batch.deposits.getD i dummyDeposit).toBytes.data ∧
      (extractedArg batch).tokens.getD i [] =
        bytesToAddress (batch.deposits.getD i dummyDeposit).convertedTokenBytes.data ∧
      ((extractedArg batch).nonces.getD i dummyBigInt).val =
        ((batch.deposits.getD i dummyDeposit).nonce : Int) ∧
      ((extractedArg batch).amounts.getD i dummyBigInt).val =
        (batch.deposits.getD i dummyDeposit).amount.val ∧
      ((extractedArg batch).amounts.getD i dummyBigInt).id ∉ batchRefIds batch ∧
      ((extractedArg batch).nonces.getD i dummyBigInt).id ∉ batchRefIds batch ∧
      (extractedArg batch).convertedTokenBytes.getD i dummyBytes =
        (batch.deposits.getD i dummyDeposit).convertedTokenBytes := by
  have he := extractedArg_eq batch
  refine ⟨?_, ?_, ?_, ?_, ?_, ?_, ?_⟩
  · rw [ExtractList, extractedArg, ExtractList]
  · rw [he]; simp
  · rw [he]; simp
  · rw [he]; simp
  · rw [he]; simp [amountsFrom_length]
  · rw [he]; simp [noncesFrom_length]
  · intro i hi
    refine ⟨?_, ?_, ?_, ?_, ?_, ?_, ?_⟩
    · rw [he]
      exact getD_map_of_lt batch.deposits _ i dummyDeposit [] hi
    · rw [he]
      exact getD_map_of_lt batch.deposits _ i dummyDeposit [] hi
    · rw [he]
      show ((noncesFrom (freshBase batch) batch.deposits).getD i dummyBigInt).val = _
      rw [noncesFrom_getD batch.deposits (freshBase batch) i hi]
    · rw [he]
      show ((amountsFrom (freshBase batch) batch.deposits).getD i dummyBigInt).val = _
      rw [amountsFrom_getD batch.deposits (freshBase batch) i hi]
    · rw [he]
      show ((amountsFrom (freshBase batch) batch.deposits).getD i dummyBigInt).id ∉ _
      rw [amountsFrom_getD batch.deposits (freshBase batch) i hi]
      intro hmem
      have := mem_batchRefIds_lt_freshBase batch _ hmem
      simp only [] at this
      omega
    · rw [he]
      show ((noncesFrom (freshBase batch) batch.deposits).getD i dummyBigInt).id ∉ _
      rw [noncesFrom_getD batch.deposits (freshBase batch) i hi]
      intro hmem
      have := mem_batchRefIds_lt_freshBase batch _ hmem
      simp only [] at this
      omega
    · rw [he]
      exact getD_map_of_lt batch.deposits _ i dummyDeposit dummyBytes hi

/-- C10 witness: on the aliasing batch, the amount copy at position 0
has an identity outside the batch. -/
theorem C10_extractList_amended_witness :
    ((extractedArg aliasBatch).amounts.getD 0 dummyBigInt).id ∉ batchRefIds aliasBatch :=
  ((C10_extractList_amended aliasBatch).2.2.2.2.2.2 0 (by decide)).2.2.2.2.1

end MxBridge.BatchProcessor
